import Mathlib

/-!
Verification of the UX-audit analyze route: the signal extractor (`runRules`),
the prompt builder (`buildPrompt`), the provider branches of `POST` and the
stream-normalization transforms, shallowly embedded from
`src/unnamed/part_000` and `src/app/api/analyze/route.ts`.

JavaScript string/stream library operations (`split`, `trim`, `slice`,
`startsWith`, `JSON.stringify` of a one-field record, `JSON.parse` of the
wire frames the adapters receive) are modelled by executable Lean functions
defined below; everything else is translated line by line from the source.
-/

namespace UxAudit

/-- Left and right curly brace characters, used when building JSON text. -/
def lbrace : Char := Char.ofNat 123

/-- Right curly brace character. -/
def rbrace : Char := Char.ofNat 125

/-- Boolean check that `p` is a leading segment of `l`; models
JavaScript `String.prototype.startsWith` at the character-list level. -/
def leadsWith : List Char → List Char → Bool
  | [], _ => true
  | _ :: _, [] => false
  | p :: ps, c :: cs => p = c && leadsWith ps cs

/-- Drop a required leading segment, returning the remainder when it is
present. -/
def stripLead : List Char → List Char → Option (List Char)
  | [], l => some l
  | _ :: _, [] => none
  | p :: ps, c :: cs => if p = c then stripLead ps cs else none

theorem stripLead_append (p r : List Char) : stripLead p (p ++ r) = some r := by
  induction p with
  | nil => rfl
  | cons c cs ih => simp [stripLead, ih]

theorem leadsWith_append (p r : List Char) : leadsWith p (p ++ r) = true := by
  induction p with
  | nil => rfl
  | cons c cs ih => simp [leadsWith, ih]

/-- Split a character list at every occurrence of `sep`; models the
behaviour of JavaScript `String.prototype.split` with a one-character
separator (the result always has one more part than there are separators,
and parts may be empty). -/
def splitChar (sep : Char) : List Char → List (List Char)
  | [] => [[]]
  | c :: rest =>
    match splitChar sep rest with
    | [] => if c = sep then [[], []] else [[c]]
    | h :: t => if c = sep then [] :: h :: t else (c :: h) :: t

theorem splitChar_ne_nil (sep : Char) (l : List Char) : splitChar sep l ≠ [] := by
  cases l with
  | nil => simp [splitChar]
  | cons c rest =>
    simp only [splitChar]
    split <;> (split <;> simp)

theorem splitChar_sep_cons (sep : Char) (r : List Char) :
    splitChar sep (sep :: r) = [] :: splitChar sep r := by
  simp only [splitChar]
  cases h : splitChar sep r with
  | nil => exact absurd h (splitChar_ne_nil sep r)
  | cons a t => simp

theorem splitChar_other_cons (sep c : Char) (r : List Char) (hc : c ≠ sep) :
    splitChar sep (c :: r) =
      match splitChar sep r with
      | [] => [[c]]
      | h :: t => (c :: h) :: t := by
  simp only [splitChar]
  cases h : splitChar sep r with
  | nil => simp [hc]
  | cons a t => simp [hc]

/-- Splitting `a ++ sep :: r` where `a` is separator-free peels off `a`
as the first part. -/
theorem splitChar_append_sep (sep : Char) (a r : List Char)
    (ha : a.all (fun c => c ≠ sep)) :
    splitChar sep (a ++ sep :: r) = a :: splitChar sep r := by
  induction a with
  | nil => simpa using splitChar_sep_cons sep r
  | cons c cs ih =>
    simp only [List.all_cons, Bool.and_eq_true, decide_eq_true_eq] at ha
    have := ih ha.2
    rw [List.cons_append, splitChar_other_cons sep c _ ha.1, this]

/-- Splitting a separator-free list leaves it whole. -/
theorem splitChar_no_sep (sep : Char) (a : List Char)
    (ha : a.all (fun c => c ≠ sep)) :
    splitChar sep a = [a] := by
  induction a with
  | nil => rfl
  | cons c cs ih =>
    simp only [List.all_cons, Bool.and_eq_true, decide_eq_true_eq] at ha
    rw [splitChar_other_cons sep c _ ha.1, ih ha.2]

/-- Concatenation of a list of strings, via the underlying character
lists. -/
def concatAll (l : List String) : String :=
  String.mk (l.map String.data).flatten

theorem concatAll_nil : concatAll [] = "" := rfl

theorem concatAll_cons (s : String) (l : List String) :
    concatAll (s :: l) = s ++ concatAll l := rfl

/-- Concatenation ignores empty strings, so filtering them out of a list
does not change the concatenation. -/
theorem concatAll_filter_ne_empty (l : List String) :
    concatAll (l.filter (fun s => s ≠ "")) = concatAll l := by
  induction l with
  | nil => rfl
  | cons s rest ih =>
    by_cases hs : s = ""
    · subst hs
      simpa [concatAll_cons] using ih
    · rw [List.filter_cons_of_pos (by simp [hs]), concatAll_cons, ih,
        concatAll_cons]

/-! JSON text codec.  `escChar`/`escL` model the string escaping performed
by JavaScript `JSON.stringify`; `parseStrBody` models the string-literal
part of `JSON.parse`.  The route code serialises every outbound record
with `JSON.stringify({ delta }) + "\n"` and parses upstream frames with
`JSON.parse`, so these are the wire-level primitives of the embedding. -/

/-- Lower-case hexadecimal digit character for a value below 16. -/
def hexDig (n : Nat) : Char :=
  if n < 10 then Char.ofNat (48 + n) else Char.ofNat (87 + n)

/-- Numeric value of a hexadecimal digit character. -/
def hexVal (c : Char) : Option Nat :=
  if 48 ≤ c.toNat ∧ c.toNat ≤ 57 then some (c.toNat - 48)
  else if 97 ≤ c.toNat ∧ c.toNat ≤ 102 then some (c.toNat - 87)
  else if 65 ≤ c.toNat ∧ c.toNat ≤ 70 then some (c.toNat - 55)
  else none

theorem hexVal_hexDig (n : Nat) (h : n < 16) : hexVal (hexDig n) = some n := by
  interval_cases n <;> decide

theorem hexDig_ne_nl (n : Nat) (h : n < 16) : hexDig n ≠ '\n' := by
  interval_cases n <;> decide

/-- Escape one character the way `JSON.stringify` escapes characters
inside a string literal. -/
def escChar (c : Char) : List Char :=
  if c = '"' then ['\\', '"']
  else if c = '\\' then ['\\', '\\']
  else if c = '\n' then ['\\', 'n']
  else if c = '\r' then ['\\', 'r']
  else if c = '\t' then ['\\', 't']
  else if c = '\x08' then ['\\', 'b']
  else if c = '\x0c' then ['\\', 'f']
  else if c.toNat < 32 then
    ['\\', 'u', '0', '0', hexDig (c.toNat / 16), hexDig (c.toNat % 16)]
  else [c]

/-- Escape a whole character list (`JSON.stringify` string body). -/
def escL (cs : List Char) : List Char := (cs.map escChar).flatten

theorem escL_nil : escL [] = [] := rfl

theorem escL_cons (c : Char) (cs : List Char) :
    escL (c :: cs) = escChar c ++ escL cs := rfl

/-- Escaped text never contains a raw newline (a newline is emitted as
the two characters `\` `n`), so newline-framed wire protocols can carry
any fragment. -/
theorem escChar_no_nl (c : Char) : '\n' ∉ escChar c := by
  unfold escChar
  split
  · decide
  split
  · decide
  split
  · decide
  split
  · decide
  split
  · decide
  split
  · decide
  split
  · decide
  split
  · rename_i h8
    have h16a : c.toNat / 16 < 16 := by omega
    have h16b : c.toNat % 16 < 16 := by omega
    simp only [List.mem_cons, List.not_mem_nil, or_false]
    push_neg
    refine ⟨by decide, by decide, by decide, by decide, ?_, ?_⟩
    · exact fun h => hexDig_ne_nl _ h16a h.symm
    · exact fun h => hexDig_ne_nl _ h16b h.symm
  · rename_i h1 h2 h3 h4 h5 h6 h7 h8
    simp only [List.mem_singleton]
    exact fun h => h3 h.symm

theorem escL_no_nl (cs : List Char) : '\n' ∉ escL cs := by
  induction cs with
  | nil => simp [escL_nil]
  | cons c rest ih =>
    rw [escL_cons]
    simp only [List.mem_append]
    push_neg
    exact ⟨escChar_no_nl c, ih⟩

/-- Decode one escape sequence (the characters after a backslash),
returning the decoded character and the remaining input.  Models the
escapes accepted by `JSON.parse`. -/
def unescStep : List Char → Option (Char × List Char)
  | [] => none
  | e :: rest2 =>
    if e = '"' then some ('"', rest2)
    else if e = '\\' then some ('\\', rest2)
    else if e = '/' then some ('/', rest2)
    else if e = 'n' then some ('\n', rest2)
    else if e = 'r' then some ('\r', rest2)
    else if e = 't' then some ('\t', rest2)
    else if e = 'b' then some ('\x08', rest2)
    else if e = 'f' then some ('\x0c', rest2)
    else if e = 'u' then
      match rest2 with
      | h1 :: h2 :: h3 :: h4 :: rest3 =>
        match hexVal h1, hexVal h2, hexVal h3, hexVal h4 with
        | some a, some b, some c3, some d =>
          some (Char.ofNat (((a * 16 + b) * 16 + c3) * 16 + d), rest3)
        | _, _, _, _ => none
      | _ => none
    else none

/-- Fuelled scanner for the body of a JSON string literal (everything
after the opening quote): returns the decoded characters and the input
following the closing quote.  Models `JSON.parse`'s string scanning,
including the escape sequences it accepts and its rejection of raw
control characters.  The fuel only bounds recursion depth; it is
instantiated with the input length, which every path strictly
decreases. -/
def psb : Nat → List Char → Option (List Char × List Char)
  | 0, _ => none
  | _ + 1, [] => none
  | fuel + 1, c :: rest =>
    if c = '"' then some ([], rest)
    else if c = '\\' then
      match unescStep rest with
      | some (d, rest2) => (psb fuel rest2).map (fun p => (d :: p.1, p.2))
      | none => none
    else if c.toNat < 32 then none
    else (psb fuel rest).map (fun p => (c :: p.1, p.2))

/-- Parse the body of a JSON string literal. -/
def parseStrBody (l : List Char) : Option (List Char × List Char) :=
  psb l.length l

/-- Escape sequences keep the scanner above its fuel bound: decoding one
escape consumes at least one input character. -/
theorem unescStep_shrink {l : List Char} {d : Char} {r : List Char}
    (h : unescStep l = some (d, r)) : r.length < l.length := by
  unfold unescStep at h
  repeat' split at h
  all_goals cases h
  all_goals (simp_all; try omega)

theorem psb_quote (f : Nat) (t : List Char) : psb (f + 1) ('"' :: t) = some ([], t) := by
  simp [psb]

theorem psb_esc (f : Nat) (rest : List Char) :
    psb (f + 1) ('\\' :: rest) =
      match unescStep rest with
      | some (d, r2) => (psb f r2).map (fun p => (d :: p.1, p.2))
      | none => none := by
  simp [psb]

theorem psb_other (f : Nat) (c : Char) (rest : List Char) (h1 : c ≠ '"')
    (h2 : c ≠ '\\') (h3 : ¬c.toNat < 32) :
    psb (f + 1) (c :: rest) = (psb f rest).map (fun p => (c :: p.1, p.2)) := by
  simp [psb, h1, h2, h3]

theorem unescStep_u00 (a b : Nat) (ha : a < 16) (hb : b < 16) (r : List Char) :
    unescStep ('u' :: '0' :: '0' :: hexDig a :: hexDig b :: r) =
      some (Char.ofNat (a * 16 + b), r) := by
  unfold unescStep
  have h0 : hexVal '0' = some 0 := by decide
  have harith : ((0 * 16 + 0) * 16 + a) * 16 + b = a * 16 + b := by ring
  simp [h0, hexVal_hexDig _ ha, hexVal_hexDig _ hb, harith]

theorem escChar_len_pos (c : Char) : 1 ≤ (escChar c).length := by
  unfold escChar
  repeat' split
  all_goals simp

/-- Decoding inverts encoding: given enough fuel, scanning an escaped
body followed by the closing quote recovers the original characters and
the trailing input. -/
theorem psb_escL (cs : List Char) : ∀ (fuel : Nat) (t : List Char),
    (escL cs ++ '"' :: t).length ≤ fuel → psb fuel (escL cs ++ '"' :: t) = some (cs, t) := by
  induction cs with
  | nil =>
    intro fuel t hfuel
    rw [escL_nil, List.nil_append] at hfuel ⊢
    match fuel with
    | 0 => simp at hfuel
    | f + 1 => exact psb_quote f t
  | cons c cs ih =>
    intro fuel t hfuel
    rw [escL_cons, List.append_assoc] at hfuel ⊢
    have hrest : (escL cs ++ '"' :: t).length < fuel := by
      have hp := escChar_len_pos c
      simp only [List.length_append] at hfuel ⊢
      omega
    by_cases h1 : c = '"'
    · subst h1
      match fuel with
      | 0 => simp at hfuel
      | f + 1 =>
        show psb (f + 1) ('\\' :: '"' :: (escL cs ++ '"' :: t)) = _
        rw [psb_esc]
        have := ih f t (by omega)
        simp [unescStep, this]
    by_cases h2 : c = '\\'
    · subst h2
      match fuel with
      | 0 => simp at hfuel
      | f + 1 =>
        show psb (f + 1) ('\\' :: '\\' :: (escL cs ++ '"' :: t)) = _
        rw [psb_esc]
        have := ih f t (by omega)
        simp [unescStep, this]
    by_cases h3 : c = '\n'
    · subst h3
      match fuel with
      | 0 => simp at hfuel
      | f + 1 =>
        show psb (f + 1) ('\\' :: 'n' :: (escL cs ++ '"' :: t)) = _
        rw [psb_esc]
        have := ih f t (by omega)
        simp [unescStep, this]
    by_cases h4 : c = '\r'
    · subst h4
      match fuel with
      | 0 => simp at hfuel
      | f + 1 =>
        show psb (f + 1) ('\\' :: 'r' :: (escL cs ++ '"' :: t)) = _
        rw [psb_esc]
        have := ih f t (by omega)
        simp [unescStep, this]
    by_cases h5 : c = '\t'
    · subst h5
      match fuel with
      | 0 => simp at hfuel
      | f + 1 =>
        show psb (f + 1) ('\\' :: 't' :: (escL cs ++ '"' :: t)) = _
        rw [psb_esc]
        have := ih f t (by omega)
        simp [unescStep, this]
    by_cases h6 : c = '\x08'
    · subst h6
      match fuel with
      | 0 => simp at hfuel
      | f + 1 =>
        show psb (f + 1) ('\\' :: 'b' :: (escL cs ++ '"' :: t)) = _
        rw [psb_esc]
        have := ih f t (by omega)
        simp [unescStep, this]
    by_cases h7 : c = '\x0c'
    · subst h7
      match fuel with
      | 0 => simp at hfuel
      | f + 1 =>
        show psb (f + 1) ('\\' :: 'f' :: (escL cs ++ '"' :: t)) = _
        rw [psb_esc]
        have := ih f t (by omega)
        simp [unescStep, this]
    by_cases h8 : c.toNat < 32
    · have hdiv : c.toNat / 16 < 16 := by omega
      have hmod : c.toNat % 16 < 16 := by omega
      have hesc : escChar c =
          ['\\', 'u', '0', '0', hexDig (c.toNat / 16), hexDig (c.toNat % 16)] := by
        unfold escChar
        simp [h1, h2, h3, h4, h5, h6, h7, h8]
      rw [hesc] at hfuel ⊢
      match fuel with
      | 0 => simp at hfuel
      | f + 1 =>
        show psb (f + 1) ('\\' :: 'u' :: '0' :: '0' :: hexDig (c.toNat / 16) ::
          hexDig (c.toNat % 16) :: (escL cs ++ '"' :: t)) = _
        rw [psb_esc, unescStep_u00 _ _ hdiv hmod]
        have harith : c.toNat / 16 * 16 + c.toNat % 16 = c.toNat := by omega
        have := ih f t (by omega)
        simp [this, harith]
    · have hesc : escChar c = [c] := by
        unfold escChar
        simp [h1, h2, h3, h4, h5, h6, h7, h8]
      rw [hesc] at hfuel ⊢
      match fuel with
      | 0 => simp at hfuel
      | f + 1 =>
        show psb (f + 1) (c :: (escL cs ++ '"' :: t)) = _
        rw [psb_other f c _ h1 h2 h8]
        have := ih f t (by omega)
        simp [this]

/-- Decoding inverts encoding. -/
theorem parseStrBody_escL (cs t : List Char) :
    parseStrBody (escL cs ++ '"' :: t) = some (cs, t) :=
  psb_escL cs (escL cs ++ '"' :: t).length t le_rfl

/-! Wire frames and outbound records.

The handlers serialise every outbound record with
`JSON.stringify({ delta: ... }) + "\n"` (part_000 line 108, route.ts
lines 101/152/190) and error bodies with `JSON.stringify({ error: ... })`
(part_000 lines 72/127/165).  Upstream frames are parsed with
`JSON.parse` followed by one field access; `parseOllamaLine` and
`parseOpenAiJson` model that composition for frames of the documented
wire shapes (`{"response": string}` for the local-generate API,
`{"choices":[{"delta":{"content": string}}]}` for chat completions),
returning `none` exactly when `JSON.parse` would throw or the field
would be absent. -/

/-- JSON serialisation of `\x7b"delta": s\x7d` (i.e. `JSON.stringify`
applied to a one-field record). -/
def stringifyDelta (s : String) : String :=
  String.mk ([lbrace] ++ "\"delta\":".data ++ ('"' :: (escL s.data ++ ['"'])) ++ [rbrace])

/-- JSON serialisation of `\x7b"error": msg\x7d`. -/
def stringifyError (msg : String) : String :=
  String.mk ([lbrace] ++ "\"error\":".data ++ ('"' :: (escL msg.data ++ ['"'])) ++ [rbrace])

/-- Leading characters of a local-generate frame, up to and including the
opening quote of the `response` value. -/
def ollamaLead : List Char := [lbrace] ++ "\"response\":".data ++ ['"']

/-- One local-generate upstream frame carrying the fragment `s`. -/
def encodeOllamaFrame (s : String) : String :=
  String.mk (ollamaLead ++ (escL s.data ++ '"' :: [rbrace]))

/-- `JSON.parse(line)` followed by reading `.response`, modelled on the
canonical local-generate wire shape: for a frame exactly as the upstream
contract emits it, the decoded fragment is returned (truthiness is
applied by the caller).  Every other line maps to `none`, which
conflates a genuine parse throw with lines `JSON.parse` would accept in
a different surface form (extra fields, reordered keys, leading
whitespace); the model is therefore faithful only on the canonical
shape, and theorems about DROPPED frames never use
`parseOllamaLine bad = none` as their malformedness hypothesis — they
use `definitelyNotJson`, a sound under-approximation of a parse
throw. -/
def parseOllamaLine (line : String) : Option String :=
  match stripLead ollamaLead line.data with
  | none => none
  | some rest =>
    match parseStrBody rest with
    | some (body, t) => if t = [rbrace] then some (String.mk body) else none
    | none => none

theorem parseOllamaLine_encode (s : String) :
    parseOllamaLine (encodeOllamaFrame s) = some s := by
  unfold parseOllamaLine encodeOllamaFrame
  have h1 : (String.mk (ollamaLead ++ (escL s.data ++ '"' :: [rbrace]))).data
      = ollamaLead ++ (escL s.data ++ '"' :: [rbrace]) := rfl
  rw [h1, stripLead_append]
  show (match parseStrBody (escL s.data ++ '"' :: [rbrace]) with
    | some (body, t) => if t = [rbrace] then some (String.mk body) else none
    | none => none) = some s
  rw [parseStrBody_escL]
  rfl

theorem encodeOllamaFrame_no_nl (s : String) : '\n' ∉ (encodeOllamaFrame s).data := by
  show '\n' ∉ ollamaLead ++ (escL s.data ++ '"' :: [rbrace])
  simp only [List.mem_append, List.mem_cons]
  push_neg
  refine ⟨by decide, escL_no_nl s.data, by decide, by decide⟩

theorem encodeOllamaFrame_ne_empty (s : String) : encodeOllamaFrame s ≠ "" := by
  unfold encodeOllamaFrame
  intro h
  have := congrArg String.data h
  simp [ollamaLead] at this

/-- JavaScript `string.split(sep)` for a one-character separator. -/
def jsSplit (sep : Char) (s : String) : List String :=
  (splitChar sep s.data).map String.mk

/-- Deltas emitted for one upstream chunk by the local-generate
normalizer (part_000 lines 102–111): split the chunk on newlines, drop
empty lines, `JSON.parse` each line and emit its `response` field when
truthy, swallowing parse failures. -/
def ollamaChunkDeltas (chunk : String) : List String :=
  ((jsSplit '\n' chunk).filter (fun l => l ≠ "")).filterMap
    (fun line =>
      match parseOllamaLine line with
      | some r => if r = "" then none else some r
      | none => none)

/-- Deltas written to the outbound stream across all upstream chunks, in
emission order. -/
def ollamaDeltas (chunks : List String) : List String :=
  (chunks.map ollamaChunkDeltas).flatten

/-- Full outbound body of the local-generate branch: each delta is
written as `JSON.stringify({delta}) + "\n"`. -/
def ollamaBody (chunks : List String) : String :=
  concatAll ((ollamaDeltas chunks).map (fun d => stringifyDelta d ++ "\n"))

/-- Upstream wire for a fragment list: one newline-terminated frame per
fragment, per the local-generate upstream contract. -/
def ollamaWire (frags : List String) : String :=
  concatAll (frags.map (fun s => encodeOllamaFrame s ++ "\n"))

theorem strData_append (a b : String) : (a ++ b).data = a.data ++ b.data := rfl

theorem all_ne_of_not_mem {a : List Char} {c : Char} (h : c ∉ a) :
    a.all (fun x => x ≠ c) = true := by
  simp only [List.all_eq_true, decide_eq_true_eq]
  exact fun x hx he => h (he ▸ hx)

theorem ollamaWire_cons_data (s : String) (fs : List String) :
    (ollamaWire (s :: fs)).data =
      (encodeOllamaFrame s).data ++ '\n' :: (ollamaWire fs).data := by
  rw [ollamaWire, List.map_cons, concatAll_cons, strData_append, ollamaWire]
  rw [strData_append]
  simp

/-- On a chunk consisting of whole newline-terminated frames, the
local-generate normalizer emits exactly the truthy fragments, in
order. -/
theorem ollamaChunkDeltas_wire (fs : List String) :
    ollamaChunkDeltas (ollamaWire fs) = fs.filter (fun s => s ≠ "") := by
  induction fs with
  | nil => rfl
  | cons s fs ih =>
    unfold ollamaChunkDeltas jsSplit at ih ⊢
    rw [ollamaWire_cons_data,
      splitChar_append_sep '\n' _ _ (all_ne_of_not_mem (encodeOllamaFrame_no_nl s))]
    rw [List.map_cons]
    have heta : String.mk (encodeOllamaFrame s).data = encodeOllamaFrame s := rfl
    rw [heta, List.filter_cons_of_pos (by simp [encodeOllamaFrame_ne_empty s]),
      List.filterMap_cons, parseOllamaLine_encode, List.filter_cons]
    by_cases hs : s = ""
    · simp only [hs, if_pos rfl, ih]
      simp
    · simp only [if_neg hs, ih]
      simp [hs]

/-- Over any sequence of chunks each of which consists of whole frames,
the local-generate normalizer emits exactly the truthy fragments of all
chunks, in order. -/
theorem ollamaDeltas_aligned (groups : List (List String)) :
    ollamaDeltas (groups.map ollamaWire) = groups.flatten.filter (fun s => s ≠ "") := by
  induction groups with
  | nil => rfl
  | cons g groups ih =>
    rw [List.map_cons, ollamaDeltas, List.map_cons, List.flatten_cons,
      ← ollamaDeltas, ih, ollamaChunkDeltas_wire, List.flatten_cons,
      List.filter_append]

/-- JavaScript whitespace test for the characters relevant here (models
`String.prototype.trim`'s character class on the ASCII range). -/
def jsWs (c : Char) : Bool :=
  c = ' ' || c = '\n' || c = '\t' || c = '\r'

/-- JavaScript `string.trim()`. -/
def jsTrim (s : String) : String :=
  String.mk (((s.data.dropWhile jsWs).reverse.dropWhile jsWs).reverse)

/-- JavaScript `string.split("\n\n")`: split at each non-overlapping
occurrence of a blank line, scanning left to right. -/
def splitBlank : List Char → List (List Char)
  | [] => [[]]
  | [c] => [[c]]
  | c1 :: c2 :: rest =>
    if c1 = '\n' ∧ c2 = '\n' then [] :: splitBlank rest
    else
      match splitBlank (c2 :: rest) with
      | [] => [[c1]]
      | h :: t => (c1 :: h) :: t

/-- Leading characters of a chat-completions data frame, up to and
including the opening quote of the `content` value. -/
def openaiLead : List Char :=
  [lbrace] ++ "\"choices\":[".data ++ [lbrace] ++ "\"delta\":".data ++
    [lbrace] ++ "\"content\":".data ++ ['"']

/-- Trailing characters of a chat-completions data frame, after the
closing quote of the `content` value. -/
def openaiTail : List Char := [rbrace, rbrace, ']', rbrace]

/-- One chat-completions JSON frame carrying the fragment `s`. -/
def encodeOpenAiEvt (s : String) : String :=
  String.mk (openaiLead ++ (escL s.data ++ '"' :: openaiTail))

/-- `JSON.parse(json)` followed by reading `choices?.[0]?.delta?.content`,
for frames of the chat-completions wire shape; `none` models both a
parse throw and an absent field. -/
def parseOpenAiJson (j : String) : Option String :=
  match stripLead openaiLead j.data with
  | none => none
  | some rest =>
    match parseStrBody rest with
    | some (body, t) => if t = openaiTail then some (String.mk body) else none
    | none => none

theorem parseOpenAiJson_encode (s : String) :
    parseOpenAiJson (encodeOpenAiEvt s) = some s := by
  unfold parseOpenAiJson encodeOpenAiEvt
  have h1 : (String.mk (openaiLead ++ (escL s.data ++ '"' :: openaiTail))).data
      = openaiLead ++ (escL s.data ++ '"' :: openaiTail) := rfl
  rw [h1, stripLead_append]
  show (match parseStrBody (escL s.data ++ '"' :: openaiTail) with
    | some (body, t) => if t = openaiTail then some (String.mk body) else none
    | none => none) = some s
  rw [parseStrBody_escL]
  rfl

/-- Delta extracted from one complete SSE event (route.ts lines
146–153). -/
def openaiEvtDelta (evt : String) : Option String :=
  if leadsWith "data:".data evt.data then
    let json := jsTrim (String.mk (evt.data.drop 5))
    if json = "[DONE]" then none
    else
      match parseOpenAiJson json with
      | some d => if d = "" then none else some d
      | none => none
  else none

/-- Buffered event loop of the chat-completions normalizer: per chunk,
append to the buffer, split on blank lines, keep the final piece as the
new buffer and emit the deltas of the complete events.  The buffer left
over when the upstream ends is discarded, as in the source. -/
def openaiRun : String → List String → List String
  | _, [] => []
  | buffer, c :: rest =>
    let events := (splitBlank (buffer ++ c).data).map String.mk
    let buffer2 := (events.getLast?).getD ""
    (events.dropLast.filterMap openaiEvtDelta) ++ openaiRun buffer2 rest

/-- Deltas written to the outbound stream across all upstream chunks, in
emission order. -/
def openaiDeltas (chunks : List String) : List String := openaiRun "" chunks

/-- One complete SSE wire event for a fragment. -/
def openaiWireEvt (s : String) : String := "data: " ++ encodeOpenAiEvt s ++ "\n\n"

/-- Upstream SSE wire for a fragment list. -/
def openaiWire (frags : List String) : String :=
  concatAll (frags.map openaiWireEvt)

/-- The terminating SSE event. -/
def openaiDoneEvt : String := "data: [DONE]\n\n"

theorem splitBlank_cons2 (c1 c2 : Char) (rest : List Char) :
    splitBlank (c1 :: c2 :: rest) =
      if c1 = '\n' ∧ c2 = '\n' then [] :: splitBlank rest
      else
        match splitBlank (c2 :: rest) with
        | [] => [[c1]]
        | h :: t => (c1 :: h) :: t := rfl

theorem splitBlank_append (e r : List Char) (he : '\n' ∉ e) :
    splitBlank (e ++ '\n' :: '\n' :: r) = e :: splitBlank r := by
  induction e with
  | nil =>
    show splitBlank ('\n' :: '\n' :: r) = [] :: splitBlank r
    rw [splitBlank_cons2, if_pos ⟨rfl, rfl⟩]
  | cons c e ih =>
    simp only [List.mem_cons, not_or] at he
    have hc : c ≠ '\n' := fun h => he.1 h.symm
    have hrec := ih he.2
    cases e with
    | nil =>
      show splitBlank (c :: '\n' :: '\n' :: r) = [c] :: splitBlank r
      rw [List.nil_append] at hrec
      rw [splitBlank_cons2, if_neg (by simp [hc]), hrec]
    | cons d e2 =>
      show splitBlank (c :: d :: (e2 ++ '\n' :: '\n' :: r)) = (c :: d :: e2) :: splitBlank r
      rw [List.cons_append] at hrec
      rw [splitBlank_cons2, if_neg (by simp [hc]), hrec]

theorem strEmptyAppend (s : String) : "" ++ s = s := rfl

theorem strMkData (s : String) : String.mk s.data = s := rfl

theorem encodeOpenAiEvt_no_nl (s : String) : '\n' ∉ (encodeOpenAiEvt s).data := by
  show '\n' ∉ openaiLead ++ (escL s.data ++ '"' :: openaiTail)
  simp only [List.mem_append, List.mem_cons]
  push_neg
  refine ⟨?_, escL_no_nl s.data, by decide, ?_⟩
  · show '\n' ∉ openaiLead
    decide
  · show '\n' ∉ openaiTail
    decide

theorem wireEvt_no_nl (s : String) : '\n' ∉ ("data: " ++ encodeOpenAiEvt s).data := by
  rw [strData_append]
  simp only [List.mem_append]
  push_neg
  exact ⟨by decide, encodeOpenAiEvt_no_nl s⟩

theorem splitBlank_openaiWire (fs : List String) :
    splitBlank (openaiWire fs).data =
      (fs.map (fun s => ("data: " ++ encodeOpenAiEvt s).data)) ++ [[]] := by
  induction fs with
  | nil => rfl
  | cons s fs ih =>
    have hdata : (openaiWire (s :: fs)).data =
        ("data: " ++ encodeOpenAiEvt s).data ++ '\n' :: '\n' :: (openaiWire fs).data := by
      rw [openaiWire, List.map_cons, concatAll_cons, strData_append, ← openaiWire]
      rw [openaiWireEvt, strData_append, strData_append]
      simp
    rw [hdata, splitBlank_append _ _ (wireEvt_no_nl s), ih, List.map_cons,
      List.cons_append]

/-- JavaScript `trim` of a string of the form
`" " ++ a ++ mid ++ b` with non-whitespace `a` and `b` drops exactly the
leading space. -/
theorem jsTrim_space_shape (a : Char) (mid : List Char) (b : Char)
    (ha : jsWs a = false) (hb : jsWs b = false) :
    jsTrim (String.mk (' ' :: a :: (mid ++ [b]))) = String.mk (a :: (mid ++ [b])) := by
  unfold jsTrim
  have h1 : (' ' :: a :: (mid ++ [b])).dropWhile jsWs = a :: (mid ++ [b]) := by
    rw [List.dropWhile_cons, if_pos (by decide), List.dropWhile_cons, if_neg (by simp [ha])]
  have h2 : (a :: (mid ++ [b])).reverse = b :: (mid.reverse ++ [a]) := by
    simp [List.reverse_cons, List.reverse_append]
  have h3 : (b :: (mid.reverse ++ [a])).dropWhile jsWs = b :: (mid.reverse ++ [a]) := by
    rw [List.dropWhile_cons, if_neg (by simp [hb])]
  have hmkd : (String.mk (' ' :: a :: (mid ++ [b]))).data = ' ' :: a :: (mid ++ [b]) := rfl
  rw [hmkd, h1, h2, h3, ← h2, List.reverse_reverse]

/-- Extracting the delta of one complete wire event returns the
fragment, skipped when falsy. -/
theorem openaiEvtDelta_wire (s : String) :
    openaiEvtDelta ("data: " ++ encodeOpenAiEvt s) = if s = "" then none else some s := by
  unfold openaiEvtDelta
  have hstart : leadsWith "data:".data ("data: " ++ encodeOpenAiEvt s).data = true := by
    rw [strData_append]
    have : "data: ".data = "data:".data ++ [' '] := by decide
    rw [this, List.append_assoc]
    exact leadsWith_append _ _
  rw [hstart, if_pos rfl]
  have hdrop : ("data: " ++ encodeOpenAiEvt s).data.drop 5 = ' ' :: (encodeOpenAiEvt s).data := by
    rw [strData_append, List.drop_append_of_le_length (by decide)]
    rfl
  rw [hdrop]
  have hshape : (encodeOpenAiEvt s).data =
      lbrace :: (("\"choices\":[".data ++ [lbrace] ++ "\"delta\":".data ++ [lbrace] ++
        "\"content\":".data ++ ['"'] ++ escL s.data ++ ['"', rbrace, rbrace, ']']) ++ [rbrace]) := by
    show openaiLead ++ (escL s.data ++ '"' :: openaiTail) = _
    simp [openaiLead, openaiTail]
  rw [hshape, jsTrim_space_shape lbrace _ rbrace (by decide) (by decide)]
  have htrim : String.mk (lbrace :: (("\"choices\":[".data ++ [lbrace] ++ "\"delta\":".data ++
      [lbrace] ++ "\"content\":".data ++ ['"'] ++ escL s.data ++
      ['"', rbrace, rbrace, ']']) ++ [rbrace])) = encodeOpenAiEvt s := by
    apply congrArg String.mk at hshape
    rw [← hshape, strMkData]
  rw [htrim]
  have hnd : encodeOpenAiEvt s ≠ "[DONE]" := by
    intro h
    have hd : (encodeOpenAiEvt s).data = "[DONE]".data := congrArg String.data h
    rw [hshape] at hd
    have hD : "[DONE]".data = '[' :: "DONE]".data := rfl
    rw [hD] at hd
    have hhead : lbrace = '[' := ((List.cons.injEq _ _ _ _).mp hd).1
    exact absurd hhead (by decide)
  rw [if_neg hnd, parseOpenAiJson_encode]

theorem filterMap_truthy (l : List String) :
    l.filterMap (fun s => if s = "" then none else some s) = l.filter (fun s => s ≠ "") := by
  induction l with
  | nil => rfl
  | cons s l ih =>
    rw [List.filterMap_cons, List.filter_cons]
    by_cases hs : s = ""
    · simp [hs, ih]
    · simp [hs, ih]

/-- One whole-events chunk arriving on an empty buffer: every complete
event's truthy fragment is emitted, and the buffer is empty again
afterwards. -/
theorem openaiRun_chunk (g : List String) (rest : List String) :
    openaiRun "" (openaiWire g :: rest) =
      g.filter (fun s => s ≠ "") ++ openaiRun "" rest := by
  rw [openaiRun]
  rw [strEmptyAppend, splitBlank_openaiWire, List.map_append]
  have hlast : (((g.map (fun s => ("data: " ++ encodeOpenAiEvt s).data)).map String.mk) ++
      ([[]].map String.mk)).getLast? = some "" := by
    rw [List.map_singleton]
    exact List.getLast?_concat _
  have hdrop : (((g.map (fun s => ("data: " ++ encodeOpenAiEvt s).data)).map String.mk) ++
      ([[]].map String.mk)).dropLast = (g.map (fun s => ("data: " ++ encodeOpenAiEvt s).data)).map String.mk := by
    rw [List.map_singleton]
    exact List.dropLast_concat
  rw [hlast, hdrop]
  have hmaps : (g.map (fun s => ("data: " ++ encodeOpenAiEvt s).data)).map String.mk =
      g.map (fun s => "data: " ++ encodeOpenAiEvt s) := by
    rw [List.map_map]
    rfl
  rw [hmaps, List.filterMap_map]
  have hcomp : (openaiEvtDelta ∘ fun s => "data: " ++ encodeOpenAiEvt s) =
      fun s => if s = "" then none else some s := by
    funext s
    exact openaiEvtDelta_wire s
  rw [hcomp, filterMap_truthy]
  rfl

/-- Termination frame: the `[DONE]` event produces no delta and ends the
stream cleanly. -/
theorem openaiRun_done : openaiRun "" [openaiDoneEvt] = [] := by decide

/-- Over any sequence of chunks each consisting of whole events, followed
by the `[DONE]` event, the chat-completions normalizer emits exactly the
truthy fragments of all chunks, in order. -/
theorem openaiDeltas_aligned (groups : List (List String)) :
    openaiDeltas (groups.map openaiWire ++ [openaiDoneEvt]) =
      groups.flatten.filter (fun s => s ≠ "") := by
  unfold openaiDeltas
  induction groups with
  | nil =>
    simpa using openaiRun_done
  | cons g groups ih =>
    rw [List.map_cons, List.cons_append, openaiRun_chunk, ih, List.flatten_cons,
      List.filter_append]

theorem strExt {a b : String} (h : a.data = b.data) : a = b := by
  cases a
  cases b
  cases h
  rfl

theorem strAppendAssoc (a b c : String) : (a ++ b) ++ c = a ++ (b ++ c) :=
  strExt (by simp [strData_append])

theorem strAppendEmpty (s : String) : s ++ "" = s :=
  strExt (by
    rw [strData_append]
    show s.data ++ [] = s.data
    exact List.append_nil _)

theorem splitBlank_never_nil (l : List Char) : splitBlank l ≠ [] := by
  match l with
  | [] => simp [splitBlank]
  | [c] => simp [splitBlank]
  | c1 :: c2 :: rest =>
    rw [splitBlank_cons2]
    split
    · simp
    · split <;> simp

/-- A one-part split means the input held no separator, so the part is
the whole input. -/
theorem splitBlank_singleton : ∀ (l h : List Char), splitBlank l = [h] → h = l := by
  intro l
  induction l with
  | nil =>
    intro h hh
    rw [show splitBlank [] = [[]] from rfl] at hh
    injection hh with h1 _
    exact h1.symm
  | cons c1 rest ih =>
    intro h hh
    cases rest with
    | nil =>
      rw [show splitBlank [c1] = [[c1]] from rfl] at hh
      injection hh with h1 _
      exact h1.symm
    | cons c2 rest2 =>
      rw [splitBlank_cons2] at hh
      split at hh
      · injection hh with h1 h2
        exact absurd h2 (splitBlank_never_nil rest2)
      · cases hsb : splitBlank (c2 :: rest2) with
        | nil => exact absurd hsb (splitBlank_never_nil _)
        | cons hd t' =>
          rw [hsb] at hh
          injection hh with h1 h2
          subst h2
          rw [← h1, ih hd hsb]

/-- Re-splitting is compositional in the way the buffered loop relies on:
splitting `s ++ y` equals the complete parts of splitting `s` followed by
splitting the leftover part of `s` glued to `y`.  In particular a
separator straddling the boundary between `s` and `y` is found when the
leftover is re-scanned. -/
theorem splitBlank_recompose : ∀ (s y : List Char),
    splitBlank (s ++ y) =
      (splitBlank s).dropLast ++ splitBlank ((splitBlank s).getLast?.getD [] ++ y)
  | [], y => by
    rw [List.nil_append, show splitBlank [] = [[]] from rfl]
    simp
  | [c1], y => by
    rw [show splitBlank [c1] = [[c1]] from rfl]
    simp
  | c1 :: c2 :: rest2, y => by
    by_cases hb : c1 = '\n' ∧ c2 = '\n'
    · obtain ⟨hb1, hb2⟩ := hb
      subst hb1
      subst hb2
      have ih := splitBlank_recompose rest2 y
      show splitBlank ('\n' :: '\n' :: (rest2 ++ y)) = _
      rw [splitBlank_cons2, if_pos ⟨rfl, rfl⟩, ih,
        show splitBlank ('\n' :: '\n' :: rest2) = [] :: splitBlank rest2 from by
          rw [splitBlank_cons2, if_pos ⟨rfl, rfl⟩]]
      cases hT : splitBlank rest2 with
      | nil => exact absurd hT (splitBlank_never_nil _)
      | cons t0 ts =>
        rw [show (([] : List Char) :: t0 :: ts) = [[]] ++ (t0 :: ts) from rfl,
          List.dropLast_append_of_ne_nil _ (by simp), List.getLast?_append]
        cases hg : (t0 :: ts).getLast? with
        | none => exact absurd (List.getLast?_eq_none_iff.mp hg) (by simp)
        | some g => simp
    · have ih := splitBlank_recompose (c2 :: rest2) y
      rw [List.cons_append] at ih
      show splitBlank (c1 :: c2 :: (rest2 ++ y)) = _
      rw [splitBlank_cons2 c1 c2 (rest2 ++ y), if_neg hb,
        splitBlank_cons2 c1 c2 rest2, if_neg hb]
      cases hS : splitBlank (c2 :: rest2) with
      | nil => exact absurd hS (splitBlank_never_nil _)
      | cons hd t' =>
        rw [hS] at ih
        cases t' with
        | nil =>
          have hhd : hd = c2 :: rest2 := splitBlank_singleton _ _ hS
          subst hhd
          simp only [List.dropLast_single, List.getLast?_singleton, Option.getD_some,
            List.nil_append, List.cons_append] at ih ⊢
          rw [splitBlank_cons2 c1 c2 (rest2 ++ y), if_neg hb]
        | cons h2 t2 =>
          rw [ih]
          rw [show ((hd :: h2 :: t2 : List (List Char))) = [hd] ++ (h2 :: t2) from rfl,
            List.dropLast_append_of_ne_nil _ (by simp), List.getLast?_append]
          cases hg : (h2 :: t2).getLast? with
          | none => exact absurd (List.getLast?_eq_none_iff.mp hg) (by simp)
          | some g =>
            simp only [Option.or_some, Option.getD_some]
            simp [List.append_assoc, hg]
termination_by s _ => s.length
decreasing_by all_goals (simp; try omega)

theorem openaiRun_cons (b c : String) (cs : List String) :
    openaiRun b (c :: cs) =
      (((splitBlank (b ++ c).data).map String.mk).dropLast.filterMap openaiEvtDelta) ++
        openaiRun ((((splitBlank (b ++ c).data).map String.mk).getLast?).getD "") cs := rfl

/-- The buffered loop is insensitive to where the upstream cut its
chunks: receiving `x ++ y` in one read emits the same deltas and leaves
the same buffer as receiving `x` and then `y`. -/
theorem openaiRun_merge (b x y : String) (cs : List String) :
    openaiRun b ((x ++ y) :: cs) = openaiRun b (x :: y :: cs) := by
  rw [openaiRun_cons, openaiRun_cons, openaiRun_cons]
  have hdata : (b ++ (x ++ y)).data = (b ++ x).data ++ y.data := by
    simp [strData_append]
  rw [hdata, splitBlank_recompose]
  cases hg : (splitBlank (b ++ x).data).getLast? with
  | none => exact absurd (List.getLast?_eq_none_iff.mp hg) (splitBlank_never_nil _)
  | some g =>
    simp only [Option.getD_some]
    have hbuf : ((((splitBlank (b ++ x).data).map String.mk).getLast?).getD "") =
        String.mk g := by
      rw [List.getLast?_map, hg]
      rfl
    rw [hbuf]
    have hdata2 : (String.mk g ++ y).data = g ++ y.data := rfl
    rw [hdata2]
    have hBne : splitBlank (g ++ y.data) ≠ [] := splitBlank_never_nil _
    have hBmapne : (splitBlank (g ++ y.data)).map String.mk ≠ [] := by simpa using hBne
    rw [List.map_append, List.dropLast_append_of_ne_nil _ hBmapne, List.filterMap_append,
      List.getLast?_append]
    cases hgB : ((splitBlank (g ++ y.data)).map String.mk).getLast? with
    | none => exact absurd (by simpa using List.getLast?_eq_none_iff.mp hgB) hBne
    | some gB =>
      simp only [Option.or_some, Option.getD_some]
      rw [List.map_dropLast, List.append_assoc]

theorem openaiRun_concat (b c : String) (cs : List String) :
    openaiRun b (c :: cs) = openaiRun b [c ++ concatAll cs] := by
  induction cs generalizing b c with
  | nil => rw [concatAll_nil, strAppendEmpty]
  | cons c2 cs2 ih =>
    rw [← openaiRun_merge b c c2 cs2, ih, strAppendAssoc, ← concatAll_cons]

/-- The chat-completions normalizer reconstructs the upstream fragments
over EVERY chunking of its wire, including chunk boundaries that fall
inside a frame: the buffer carries partial events across reads. -/
theorem openaiDeltas_any (frags : List String) (c : String) (cs : List String)
    (hw : concatAll (c :: cs) = openaiWire frags ++ openaiDoneEvt) :
    openaiDeltas (c :: cs) = frags.filter (fun s => s ≠ "") := by
  show openaiRun "" (c :: cs) = _
  rw [openaiRun_concat,
    show c ++ concatAll cs = openaiWire frags ++ openaiDoneEvt from by
      rw [← concatAll_cons, hw],
    openaiRun_merge "" (openaiWire frags) openaiDoneEvt []]
  have h := openaiDeltas_aligned [frags]
  simpa [openaiDeltas] using h

inductive HNode where
  | elem (tag : String) (attrs : List (String × String)) (children : List HNode)
  | txt (s : String)
deriving Repr

mutual
/-- All elements in the subtree rooted at one node (the node itself when
it is an element, then its descendants), in document order. -/
def elemsN : HNode → List HNode
  | .txt _ => []
  | .elem t a cs => .elem t a cs :: elemsL cs
/-- All elements of a node forest in document order (pre-order). -/
def elemsL : List HNode → List HNode
  | [] => []
  | n :: rest => elemsN n ++ elemsL rest
end

/-- All elements of a loaded document in document order. -/
def elemsOf (doc : List HNode) : List HNode := elemsL doc

mutual
/-- Text content of one node (for an element, all descendant text). -/
def textN : HNode → String
  | .txt s => s
  | .elem _ _ cs => textL cs
/-- Concatenated text content of a node forest. -/
def textL : List HNode → String
  | [] => ""
  | n :: rest => textN n ++ textL rest
end

/-- Text content of one node (cheerio `.text()`). -/
def textOfNode (n : HNode) : String := textN n

def getAttr (attrs : List (String × String)) (name : String) : Option String :=
  (attrs.find? (fun p => p.1 = name)).map (fun p => p.2)

def attrOf : HNode → String → Option String
  | .elem _ attrs _, name => getAttr attrs name
  | .txt _, _ => none

def tagOf : HNode → String
  | .elem t _ _ => t
  | .txt _ => ""

/-- Class list of an element: its `class` attribute split on spaces. -/
def classListOf (e : HNode) : List String :=
  ((splitChar ' ' ((attrOf e "class").getD "").data).map String.mk).filter
    (fun c => c ≠ "")

def hasClass (e : HNode) (c : String) : Bool := (classListOf e).contains c

/-- Substring test on character lists (used for `*=` attribute selectors
and `:contains`). -/
def containsSub (pat : List Char) : List Char → Bool
  | [] => pat.isEmpty
  | c :: rest => leadsWith pat (c :: rest) || containsSub pat rest

def isTag (t : String) (e : HNode) : Bool := tagOf e = t

def hasAttr (name : String) (e : HNode) : Bool := (attrOf e name).isSome

def attrEq (name val : String) (e : HNode) : Bool := attrOf e name = some val

def attrContains (name sub : String) (e : HNode) : Bool :=
  match attrOf e name with
  | some v => containsSub sub.data v.data
  | none => false

/-- `button` (element selector). -/
def isButtonEl (e : HNode) : Bool := isTag "button" e

/-- `a[role=button]`. -/
def isAnchorRoleButton (e : HNode) : Bool := isTag "a" e && attrEq "role" "button" e

/-- `.btn`. -/
def hasBtnClass (e : HNode) : Bool := hasClass e "btn"

/-- `[data-testid*=button]`. -/
def testidButton (e : HNode) : Bool := attrContains "data-testid" "button" e

/-- The button selector list of part_000 line 14:
`"button, a[role=button], .btn, [data-testid*=button]"`. -/
def buttonSelectors : List (HNode → Bool) :=
  [isButtonEl, isAnchorRoleButton, hasBtnClass, testidButton]

/-- The button selector list of route.ts line 9: `"button, a[role=button]"`. -/
def buttonSelectorsRoute : List (HNode → Bool) :=
  [isButtonEl, isAnchorRoleButton]

/-- `button[type="submit"]`. -/
def isSubmitButton (e : HNode) : Bool := isTag "button" e && attrEq "type" "submit" e

/-- `button:contains("Sign in")`. -/
def isSignInButton (e : HNode) : Bool :=
  isTag "button" e && containsSub "Sign in".data (textOfNode e).data

/-- `button:contains("Buy")`. -/
def isBuyButton (e : HNode) : Bool :=
  isTag "button" e && containsSub "Buy".data (textOfNode e).data

/-- `a.button`. -/
def isAnchorButtonClass (e : HNode) : Bool := isTag "a" e && hasClass e "button"

/-- The CTA selector list of part_000 lines 15–18 and route.ts lines
10–13. -/
def ctaSelectors : List (HNode → Bool) :=
  [isSubmitButton, isSignInButton, isBuyButton, isAnchorButtonClass]

/-- A comma selector-list query: each matching element once, in document
order (cheerio semantics for `$("s1, s2, ...")`). -/
def selectList (sels : List (HNode → Bool)) (doc : List HNode) : List HNode :=
  (elemsOf doc).filter (fun e => sels.any (fun s => s e))

structure SignalRecord where
  title : String
  hasViewport : Bool
  forms : Nat
  inputs : Nat
  labels : Nat
  buttons : Nat
  primaryCtaGuess : String
  hasInlineValidationHint : Bool
  hasProgress : Bool
deriving Repr, DecidableEq

/-- The extractor body shared by part_000 lines 8–33 and route.ts lines
6–31; the two sources differ only in the button selector list, passed in
as `btnSels`. -/
def runRulesWith (btnSels : List (HNode → Bool)) (doc : List HNode) : SignalRecord :=
  { title :=
      match (elemsOf doc).find? (isTag "title") with
      | some e => jsTrim (textOfNode e)
      | none => ""
    hasViewport := (elemsOf doc).any (fun e => isTag "meta" e && attrEq "name" "viewport" e)
    forms := ((elemsOf doc).filter (isTag "form")).length
    inputs := ((elemsOf doc).filter
      (fun e => isTag "input" e || isTag "select" e || isTag "textarea" e)).length
    labels := ((elemsOf doc).filter (isTag "label")).length
    buttons := (selectList btnSels doc).length
    primaryCtaGuess :=
      match (selectList ctaSelectors doc).head? with
      | some e => jsTrim (textOfNode e)
      | none => ""
    hasInlineValidationHint := (elemsOf doc).any
      (fun e => hasAttr "aria-invalid" e || hasClass e "error" || hasClass e "error-message")
    hasProgress := (elemsOf doc).any
      (fun e => isTag "progress" e || hasClass e "step" || attrEq "aria-current" "step" e) }

/-- `runRules` of part_000 lines 8–33. -/
def runRules (doc : List HNode) : SignalRecord := runRulesWith buttonSelectors doc

/-- `runRules` of route.ts lines 6–31 (narrower button selector). -/
def runRulesRoute (doc : List HNode) : SignalRecord := runRulesWith buttonSelectorsRoute doc

/-- JavaScript `html.slice(0, 4000)`. -/
def jsSlice4000 (s : String) : String := String.mk (s.data.take 4000)

/-- `buildPrompt` of part_000 lines 35–53, reproduced template byte for
byte (including the mojibake sequence U+00E2 U+20AC U+201C between "5"
and "10" present in the source file). -/
def buildPrompt (html : String) (signals : SignalRecord) : String :=
  "You are a UX auditor.\n" ++
  "Analyse the provided page using the extracted signals and the raw HTML.\n" ++
  "Return 5â€“10 actionable usability improvements in Markdown, grouped by High, Medium, and Low priority.\n" ++
  "For each item include: Issue, Impact, Recommendation. Use concise British English.\n" ++
  "Do not wrap the whole response in code fences.\n" ++
  "\n" ++
  "### Extracted signals\n" ++
  "- title: " ++ (if signals.title = "" then "(none)" else signals.title) ++ "\n" ++
  "- hasViewport: " ++ (if signals.hasViewport then "true" else "false") ++ "\n" ++
  "- forms: " ++ toString signals.forms ++ ", inputs: " ++ toString signals.inputs ++
    ", labels: " ++ toString signals.labels ++ "\n" ++
  "- buttons: " ++ toString signals.buttons ++ ", primaryCtaGuess: \"" ++
    (if signals.primaryCtaGuess = "" then "(none)" else signals.primaryCtaGuess) ++ "\"\n" ++
  "- hasInlineValidationHint: " ++
    (if signals.hasInlineValidationHint then "true" else "false") ++ "\n" ++
  "- hasProgress: " ++ (if signals.hasProgress then "true" else "false") ++ "\n" ++
  "\n" ++
  "### Raw HTML (may be truncated)\n" ++
  jsSlice4000 html ++ "\n"

/-! Content-generation (gemini) one-shot branch, part_000 lines 124–162. -/

structure GeminiPart where
  text : Option String
deriving Repr, DecidableEq

structure GeminiContent where
  parts : List GeminiPart
deriving Repr, DecidableEq

structure GeminiCandidate where
  content : Option GeminiContent
deriving Repr, DecidableEq

structure GeminiDoc where
  candidates : Option (List GeminiCandidate)
deriving Repr, DecidableEq

/-- `data?.candidates?.[0]?.content?.parts ?? []` (part_000 line 154). -/
def geminiPartsOf (d : GeminiDoc) : List GeminiPart :=
  match d.candidates with
  | some (c :: _) =>
    match c.content with
    | some ct => ct.parts
    | none => []
  | _ => []

/-- `parts.map(p => typeof p.text === "string" ? p.text : "").join("")`
(part_000 line 155): the concatenation of all `text` fields of the first
candidate's content parts. -/
def geminiInnerText (d : GeminiDoc) : String :=
  concatAll ((geminiPartsOf d).map (fun p =>
    match p.text with
    | some s => s
    | none => ""))

/-- Value of the outer `text` variable at part_000 line 160: the inner
`const text` on line 155 shadows it and is discarded with the `try`
block, so a successful parse leaves the outer variable at its initial
`""`; only the `catch` branch (line 157) assigns the raw body to it. -/
def geminiOuterText (textBody : String) (parsed : Option GeminiDoc) : String :=
  match parsed with
  | some _ => ""
  | none => textBody

/-- The delta emitted by the gemini success path (part_000 line 160):
`[gemini ok]\n` followed by `text || "[empty text]"`. -/
def geminiDelta (textBody : String) (parsed : Option GeminiDoc) : String :=
  "[gemini ok]\n" ++
    (if geminiOuterText textBody parsed = "" then "[empty text]"
     else geminiOuterText textBody parsed)

/-! Request dispatcher, part_000 lines 55–169.  External effects are
supplied as oracles: the outcome of the one target-page fetch, the
`GOOGLE_API_KEY` environment variable, and the upstream responses of the
two model providers.  `load` stands for `cheerio.load`.  The outcome
records the response (status, content type, body, emitted deltas) plus
an effect trace: the markup analysed, whether the page fetch was
attempted and whether an upstream model-provider call was made. -/

structure AnalyzeRequest where
  url : Option String
  html : Option String
  provider : String
  key : Option String
  model : Option String

structure GeminiUpstream where
  ok : Bool
  status : Nat
  textBody : String
  /-- Outcome of `JSON.parse(textBody)` (part_000 line 152); `none` when
  the parse throws. -/
  parsedBody : Option GeminiDoc

structure OllamaUpstream where
  status : Nat
  chunks : List String

structure Oracles where
  /-- Body text of the one target-page fetch; `none` when the fetch
  throws. -/
  fetchResult : Option String
  envGoogleKey : Option String
  ollama : OllamaUpstream
  gemini : GeminiUpstream

/-- JavaScript truthiness for an optional string: `""`, like a missing
value, is falsy. -/
def truthyOpt : Option String → Option String
  | some s => if s = "" then none else some s
  | none => none

/-- `url && /^https?:\/\//i.test(url)` (part_000 line 65). -/
def matchesHttpUrl : Option String → Bool
  | some u =>
      u ≠ "" &&
        (leadsWith "http://".data u.toLower.data ||
          leadsWith "https://".data u.toLower.data)
  | none => false

/-- RESOLVE_INPUT of part_000 lines 64–70: inline HTML wins; the fetch is
attempted only when it is empty and an http(s) URL is present; a fetch
throw leaves the input empty. -/
def resolvePart000 (htmlIn urlIn : Option String) (fetchResult : Option String) :
    String × Bool :=
  let raw0 := match htmlIn with
    | some h => h
    | none => ""
  if raw0 = "" && matchesHttpUrl urlIn then
    (match fetchResult with
     | some b => b
     | none => raw0, true)
  else (raw0, false)

/-- RESOLVE_INPUT of route.ts lines 58–65: the fetch is attempted
whenever `url` is truthy and starts with "http", even when inline HTML
was given, and its body overwrites the inline HTML; only a fetch throw
falls back to the inline HTML. -/
def resolveRoute (htmlIn urlIn : Option String) (fetchResult : Option String) :
    String × Bool :=
  let raw0 := match htmlIn with
    | some h => h
    | none => ""
  match urlIn with
  | some u =>
    if u ≠ "" && leadsWith "http".data u.data then
      (match fetchResult with
       | some b => b
       | none => raw0, true)
    else (raw0, false)
  | none => (raw0, false)

/-- `key || process.env.GOOGLE_API_KEY`, then the `!geminiKey` check
(part_000 lines 125–126). -/
def geminiKeyOf (keyIn envIn : Option String) : Option String :=
  match truthyOpt keyIn with
  | some k => some k
  | none => truthyOpt envIn

/-- `/^gpt-|^gemini/i.test(modelName)` (part_000 line 84). -/
def foreignModelName (m : String) : Bool :=
  leadsWith "gpt-".data m.toLower.data || leadsWith "gemini".data m.toLower.data

structure PostOutcome where
  status : Nat
  contentType : String
  body : String
  deltas : List String
  rawHtmlUsed : String
  didFetchUrl : Bool
  calledModel : Bool
deriving Repr, DecidableEq

/-- The `POST` handler of part_000 lines 55–169. -/
def postPart000 (req : AnalyzeRequest) (load : String → List HNode) (o : Oracles) :
    PostOutcome :=
  let rh := resolvePart000 req.html req.url o.fetchResult
  let rawHtml := rh.1
  let fetched := rh.2
  if rawHtml = "" then
    { status := 400, contentType := "application/json",
      body := stringifyError "No URL/HTML provided.", deltas := [],
      rawHtmlUsed := "", didFetchUrl := fetched, calledModel := false }
  else
    let signals := runRules (load rawHtml)
    let _prompt := buildPrompt rawHtml signals
    if req.provider = "ollama" then
      let m0 := match truthyOpt req.model with
        | some m => m
        | none => "deepseek-r1:14b"
      let _modelName := if foreignModelName m0 then "deepseek-r1:14b" else m0
      { status := 200, contentType := "text/plain; charset=utf-8",
        body := ollamaBody o.ollama.chunks,
        deltas := ollamaDeltas o.ollama.chunks,
        rawHtmlUsed := rawHtml, didFetchUrl := fetched, calledModel := true }
    else if req.provider = "gemini" then
      match geminiKeyOf req.key o.envGoogleKey with
      | none =>
        { status := 400, contentType := "application/json",
          body := stringifyError "Missing Google API key.", deltas := [],
          rawHtmlUsed := rawHtml, didFetchUrl := fetched, calledModel := false }
      | some _ =>
        if o.gemini.ok then
          { status := 200, contentType := "text/plain; charset=utf-8",
            body := stringifyDelta (geminiDelta o.gemini.textBody o.gemini.parsedBody) ++ "\n",
            deltas := [geminiDelta o.gemini.textBody o.gemini.parsedBody],
            rawHtmlUsed := rawHtml, didFetchUrl := fetched, calledModel := true }
        else
          { status := o.gemini.status, contentType := "text/plain; charset=utf-8",
            body := o.gemini.textBody, deltas := [],
            rawHtmlUsed := rawHtml, didFetchUrl := fetched, calledModel := true }
    else
      { status := 400, contentType := "application/json",
        body := stringifyError "Unknown provider", deltas := [],
        rawHtmlUsed := rawHtml, didFetchUrl := fetched, calledModel := false }

/-! The `POST` handler of route.ts lines 55–203.  It differs from the
part_000 handler in its dispatcher (no `!rawHtml` guard before the
fetch), its prompt template, its button selector, and its provider
branches: all three providers stream, none checks `r.ok`, and there is
no request-supplied key or model. -/

/-- `buildPrompt` of route.ts lines 33–53, reproduced template byte for
byte (a proper en dash U+2013 between "5" and "10", bold markers, and a
section order different from the part_000 template). -/
def buildPromptRoute (html : String) (signals : SignalRecord) : String :=
  "You are a UX auditor.\n" ++
  "\n" ++
  "Analyse the provided page using the extracted signals and the raw HTML.\n" ++
  "Return 5–10 actionable usability improvements in **Markdown**, grouped by **High**, **Medium**, **Low** priority.\n" ++
  "For each item include: **Issue**, **Impact**, **Recommendation**. Use British English. Be concise.\n" ++
  "\n" ++
  "### Extracted signals\n" ++
  "- title: " ++ (if signals.title = "" then "(none)" else signals.title) ++ "\n" ++
  "- hasViewport: " ++ (if signals.hasViewport then "true" else "false") ++ "\n" ++
  "- forms: " ++ toString signals.forms ++ ", inputs: " ++ toString signals.inputs ++
    ", labels: " ++ toString signals.labels ++ "\n" ++
  "- buttons: " ++ toString signals.buttons ++ ", primaryCtaGuess: \"" ++
    (if signals.primaryCtaGuess = "" then "(none)" else signals.primaryCtaGuess) ++ "\"\n" ++
  "- hasInlineValidationHint: " ++
    (if signals.hasInlineValidationHint then "true" else "false") ++ "\n" ++
  "- hasProgress: " ++ (if signals.hasProgress then "true" else "false") ++ "\n" ++
  "\n" ++
  "Do not wrap the whole response in code fences.\n" ++
  "\n" ++
  "### Raw HTML (truncated if too long)\n" ++
  jsSlice4000 html ++ "\n"

/-- Full outbound body of the chat-completions branch (route.ts line
152): each delta is written as `JSON.stringify(\x7bdelta\x7d) + "\n"`. -/
def openaiBody (chunks : List String) : String :=
  concatAll ((openaiDeltas chunks).map (fun d => stringifyDelta d ++ "\n"))

/-- Leading characters of a streaming content-generation frame, up to
and including the opening quote of the first part's `text` value. -/
def geminiStreamLead : List Char :=
  [lbrace] ++ "\"candidates\":[".data ++ [lbrace] ++ "\"content\":".data ++ [lbrace] ++
    "\"parts\":[".data ++ [lbrace] ++ "\"text\":".data ++ ['"']

/-- Trailing characters of a streaming content-generation frame, after
the closing quote of the `text` value. -/
def geminiStreamTail : List Char := [rbrace, ']', rbrace, rbrace, ']', rbrace]

/-- `JSON.parse(line)` followed by reading
`candidates?.[0]?.content?.parts?.[0]?.text` (route.ts lines 188–189),
modelled on the canonical streaming wire shape exactly as
`parseOllamaLine` is for the local-generate wire. -/
def parseGeminiLine (line : String) : Option String :=
  match stripLead geminiStreamLead line.data with
  | none => none
  | some rest =>
    match parseStrBody rest with
    | some (body, t) => if t = geminiStreamTail then some (String.mk body) else none
    | none => none

/-- Deltas emitted for one upstream chunk by the streaming
content-generation normalizer (route.ts lines 184–191): split the chunk
on newlines, drop empty lines, parse each line and emit the extracted
text when truthy, swallowing failures. -/
def geminiChunkDeltas (chunk : String) : List String :=
  ((jsSplit '\n' chunk).filter (fun l => l ≠ "")).filterMap
    (fun line =>
      match parseGeminiLine line with
      | some r => if r = "" then none else some r
      | none => none)

/-- Deltas of the streaming content-generation branch across all
upstream chunks, in emission order. -/
def geminiStreamDeltas (chunks : List String) : List String :=
  (chunks.map geminiChunkDeltas).flatten

/-- Full outbound body of the streaming content-generation branch
(route.ts line 190). -/
def geminiStreamBody (chunks : List String) : String :=
  concatAll ((geminiStreamDeltas chunks).map (fun d => stringifyDelta d ++ "\n"))

/-- The request body route.ts line 56 destructures: no `key` or `model`
field. -/
structure RouteRequest where
  url : Option String
  html : Option String
  provider : String

/-- The three streaming upstreams of route.ts plus the target-page
fetch; each upstream is a status and a chunk sequence, the status
carried only to state that the handler never reads it. -/
structure RouteOracles where
  fetchResult : Option String
  ollama : OllamaUpstream
  openai : OllamaUpstream
  gemini : OllamaUpstream

/-- The `POST` handler of route.ts lines 55–203. -/
def postRoute (req : RouteRequest) (load : String → List HNode) (o : RouteOracles) :
    PostOutcome :=
  let rh := resolveRoute req.html req.url o.fetchResult
  let rawHtml := rh.1
  let fetched := rh.2
  if rawHtml = "" then
    { status := 400, contentType := "application/json",
      body := stringifyError "No URL/HTML provided.", deltas := [],
      rawHtmlUsed := "", didFetchUrl := fetched, calledModel := false }
  else
    let signals := runRulesRoute (load rawHtml)
    let _prompt := buildPromptRoute rawHtml signals
    if req.provider = "ollama" then
      { status := 200, contentType := "text/plain; charset=utf-8",
        body := ollamaBody o.ollama.chunks,
        deltas := ollamaDeltas o.ollama.chunks,
        rawHtmlUsed := rawHtml, didFetchUrl := fetched, calledModel := true }
    else if req.provider = "openai" then
      { status := 200, contentType := "text/plain; charset=utf-8",
        body := openaiBody o.openai.chunks,
        deltas := openaiDeltas o.openai.chunks,
        rawHtmlUsed := rawHtml, didFetchUrl := fetched, calledModel := true }
    else if req.provider = "gemini" then
      { status := 200, contentType := "text/plain; charset=utf-8",
        body := geminiStreamBody o.gemini.chunks,
        deltas := geminiStreamDeltas o.gemini.chunks,
        rawHtmlUsed := rawHtml, didFetchUrl := fetched, calledModel := true }
    else
      { status := 400, contentType := "application/json",
        body := stringifyError "Unknown provider", deltas := [],
        rawHtmlUsed := rawHtml, didFetchUrl := fetched, calledModel := false }

/-! Concrete inputs used by the claim theorems below. -/

/-- A stand-in for `cheerio.load` where the parsed document is irrelevant
to the claim. -/
def anyLoad : String → List HNode := fun _ => []

/-- Upstream success body of a content-generation call whose first
candidate's single part carries the text `"Hello"`. -/
def c1Body : String :=
  "\x7b\"candidates\":[\x7b\"content\":\x7b\"parts\":[\x7b\"text\":\"Hello\"\x7d]\x7d\x7d]\x7d"

/-- The `JSON.parse` image of `c1Body`. -/
def c1Doc : GeminiDoc := ⟨some [⟨some ⟨[⟨some "Hello"⟩]⟩⟩]⟩

/-- Upstream success body whose extracted text is exactly the constant
the handler emits on every successful parse. -/
def c10Body : String :=
  "\x7b\"candidates\":[\x7b\"content\":\x7b\"parts\":[\x7b\"text\":\"[gemini ok]\\n[empty text]\"\x7d]\x7d\x7d]\x7d"

/-- The `JSON.parse` image of `c10Body`. -/
def c10Doc : GeminiDoc := ⟨some [⟨some ⟨[⟨some "[gemini ok]\n[empty text]"⟩]⟩⟩]⟩

/-- C1: the claim that a successful content-generation response carries a
single newline-terminated record whose delta is the extracted
concatenation of the first candidate's part texts (raw body as fallback)
fails on the code.  At an upstream success whose JSON parses and whose
extraction yields "Hello", the handler emits
`{"delta":"[gemini ok]\n[empty text]"}` instead: the extraction of
part_000 line 155 is computed into a block-scoped `const text` that
shadows the outer variable and is discarded, and the emitted delta also
carries the `[gemini ok]` prefix of line 160. -/
theorem c1_gemini_success_discards_extraction :
    geminiInnerText c1Doc = "Hello" ∧
    geminiDelta c1Body (some c1Doc) = "[gemini ok]\n[empty text]" ∧
    geminiDelta c1Body (some c1Doc) ≠ geminiInnerText c1Doc ∧
    geminiDelta c1Body (some c1Doc) ≠ c1Body ∧
    stringifyDelta (geminiDelta c1Body (some c1Doc)) ++ "\n" =
      "\x7b\"delta\":\"[gemini ok]\\n[empty text]\"\x7d\n" := by
  refine ⟨rfl, rfl, by decide, by decide, by decide⟩

/-- C10 (counterexample): the emitted delta is not always different from
the bare extracted text.  When the model's generated text is exactly
`"[gemini ok]\n[empty text]"`, the handler's constant success output
coincides with the extraction. -/
theorem c10_delta_can_equal_extracted_text :
    geminiInnerText c10Doc = "[gemini ok]\n[empty text]" ∧
    geminiDelta c10Body (some c10Doc) = geminiInnerText c10Doc := by
  refine ⟨rfl, by decide⟩

/-- C10 (amended): on every successful content-generation response the
delta begins with the literal prefix `"[gemini ok]\n"`; it never equals
the raw upstream body when parsing failed, and when parsing succeeded it
differs from the extracted text and from the raw body except in the
degenerate case where that text is exactly `"[gemini ok]\n[empty text]"`
(the constant emitted whenever parsing succeeds, the extraction being
discarded). -/
theorem c10_delta_prefixed (textBody : String) (parsed : Option GeminiDoc) :
    leadsWith "[gemini ok]\n".data (geminiDelta textBody parsed).data = true ∧
    (parsed = none → geminiDelta textBody parsed ≠ textBody) ∧
    (∀ d, parsed = some d → geminiInnerText d ≠ "[gemini ok]\n[empty text]" →
      geminiDelta textBody parsed ≠ geminiInnerText d) ∧
    (∀ d, parsed = some d → textBody ≠ "[gemini ok]\n[empty text]" →
      geminiDelta textBody parsed ≠ textBody) := by
  refine ⟨?_, ?_, ?_, ?_⟩
  · rw [geminiDelta, strData_append]
    exact leadsWith_append _ _
  · intro hp heq
    subst hp
    by_cases hb : textBody = ""
    · subst hb
      have hconst : geminiDelta "" none = "[gemini ok]\n[empty text]" := rfl
      rw [hconst] at heq
      exact absurd heq (by decide)
    · rw [geminiDelta] at heq
      have houter : geminiOuterText textBody none = textBody := rfl
      rw [houter, if_neg hb] at heq
      have hlen := congrArg (fun s => s.data.length) heq
      simp only [strData_append, List.length_append] at hlen
      have h12 : ("[gemini ok]\n" : String).data.length = 12 := by decide
      rw [h12] at hlen
      omega
  · intro d hp hne heq
    subst hp
    have hconst : geminiDelta textBody (some d) = "[gemini ok]\n[empty text]" := rfl
    rw [hconst] at heq
    exact hne heq.symm
  · intro d hp hne heq
    subst hp
    have hconst : geminiDelta textBody (some d) = "[gemini ok]\n[empty text]" := rfl
    rw [hconst] at heq
    exact hne heq.symm

/-- Witness for the amended C10 theorem at a concrete input. -/
theorem c10_delta_prefixed_witness :
    leadsWith "[gemini ok]\n".data (geminiDelta "x" none).data = true ∧
    geminiDelta "x" none ≠ "x" :=
  ⟨(c10_delta_prefixed "x" none).1, (c10_delta_prefixed "x" none).2.1 rfl⟩

def c2Req : AnalyzeRequest :=
  { url := none, html := some "<p>x</p>", provider := "ollama", key := none, model := none }

/-- A local-generate upstream that fails with a 500 whose body is a JSON
error object (which carries no `response` field). -/
def c2Oracles : Oracles :=
  { fetchResult := none, envGoogleKey := none,
    ollama := { status := 500, chunks := ["\x7b\"error\":\"boom\"\x7d\n"] },
    gemini := { ok := true, status := 200, textBody := "", parsedBody := none } }

/-- C2 (counterexample): the local-generate branch never checks the
upstream status: on a 500 upstream response it still answers 200 and
pipes the error body through the delta transform, which suppresses it
entirely — neither the status nor the body is forwarded. -/
theorem c2_ollama_error_not_forwarded :
    (postPart000 c2Req anyLoad c2Oracles).status = 200 ∧
    (postPart000 c2Req anyLoad c2Oracles).status ≠ c2Oracles.ollama.status ∧
    (postPart000 c2Req anyLoad c2Oracles).body = "" ∧
    (postPart000 c2Req anyLoad c2Oracles).body ≠ "\x7b\"error\":\"boom\"\x7d\n" := by
  refine ⟨rfl, by decide, rfl, by decide⟩

/-- C2 (amended): only the content-generation (gemini one-shot) branch
forwards a non-success upstream status and raw body verbatim; every
streaming branch — local-generate in both files, chat-completions and
streaming content-generation in route.ts — never inspects the upstream
status (the outcome is the same for every value of it) and always
answers 200 with the transformed stream. -/
theorem c2_error_forwarding_amended :
    (∀ (req : AnalyzeRequest) (load : String → List HNode) (o : Oracles) (k : String),
      (resolvePart000 req.html req.url o.fetchResult).1 ≠ "" →
      req.provider = "gemini" →
      geminiKeyOf req.key o.envGoogleKey = some k →
      o.gemini.ok = false →
      (postPart000 req load o).status = o.gemini.status ∧
      (postPart000 req load o).body = o.gemini.textBody ∧
      (postPart000 req load o).calledModel = true) ∧
    (∀ (req : AnalyzeRequest) (load : String → List HNode) (o : Oracles),
      (resolvePart000 req.html req.url o.fetchResult).1 ≠ "" →
      req.provider = "ollama" →
      (postPart000 req load o).status = 200 ∧
      (postPart000 req load o).body = ollamaBody o.ollama.chunks) ∧
    (∀ (req : RouteRequest) (load : String → List HNode) (o : RouteOracles),
      (resolveRoute req.html req.url o.fetchResult).1 ≠ "" →
      req.provider = "ollama" →
      (postRoute req load o).status = 200 ∧
      (postRoute req load o).body = ollamaBody o.ollama.chunks) ∧
    (∀ (req : RouteRequest) (load : String → List HNode) (o : RouteOracles),
      (resolveRoute req.html req.url o.fetchResult).1 ≠ "" →
      req.provider = "openai" →
      (postRoute req load o).status = 200 ∧
      (postRoute req load o).body = openaiBody o.openai.chunks) ∧
    (∀ (req : RouteRequest) (load : String → List HNode) (o : RouteOracles),
      (resolveRoute req.html req.url o.fetchResult).1 ≠ "" →
      req.provider = "gemini" →
      (postRoute req load o).status = 200 ∧
      (postRoute req load o).body = geminiStreamBody o.gemini.chunks) := by
  refine ⟨?_, ?_, ?_, ?_, ?_⟩
  · intro req load o k hres hp hk hok
    simp [postPart000, hp, hk, hok, hres]
  · intro req load o hres hp
    simp [postPart000, hp, hres]
  · intro req load o hres hp
    simp [postRoute, hp, hres]
  · intro req load o hres hp
    simp [postRoute, hp, hres]
  · intro req load o hres hp
    simp [postRoute, hp, hres]

def c2wReq : AnalyzeRequest :=
  { url := none, html := some "<p>x</p>", provider := "gemini", key := some "k", model := none }

def c2wOracles : Oracles :=
  { fetchResult := none, envGoogleKey := none,
    ollama := { status := 0, chunks := [] },
    gemini := { ok := false, status := 503, textBody := "upstream down", parsedBody := none } }

/-- Witness for the amended C2 theorem at a concrete input. -/
theorem c2_error_forwarding_witness :
    (postPart000 c2wReq anyLoad c2wOracles).status = 503 ∧
    (postPart000 c2wReq anyLoad c2wOracles).body = "upstream down" :=
  ⟨(c2_error_forwarding_amended.1 c2wReq anyLoad c2wOracles "k" (by decide) rfl rfl rfl).1,
   (c2_error_forwarding_amended.1 c2wReq anyLoad c2wOracles "k" (by decide) rfl rfl rfl).2.1⟩

/-- C3 (counterexample): the route.ts dispatcher fetches even when inline
HTML is given: with `html = "<p>hi</p>"` and an http URL whose fetch
returns `"<div>other</div>"`, the fetched body replaces the inline
markup and a fetch did occur. -/
theorem c3_route_fetches_despite_inline_html :
    resolveRoute (some "<p>hi</p>") (some "http://example.com") (some "<div>other</div>") =
      ("<div>other</div>", true) ∧
    ("<div>other</div>" : String) ≠ "<p>hi</p>" := by
  refine ⟨rfl, by decide⟩

/-- C3 (amended): the part_000 dispatcher behaves as claimed — non-empty
inline HTML is used as the markup and no fetch is attempted, and a fetch
can only have been attempted when the inline HTML was absent or empty
and an http(s) URL was given.  The route.ts dispatcher honours the
precedence only when no URL is present; when a URL starting with "http"
accompanies inline HTML it fetches, and a successful fetch overwrites
the inline markup. -/
theorem c3_inline_html_precedence_amended :
    (∀ (req : AnalyzeRequest) (load : String → List HNode) (o : Oracles) (h : String),
      req.html = some h → h ≠ "" →
      (postPart000 req load o).rawHtmlUsed = h ∧
      (postPart000 req load o).didFetchUrl = false) ∧
    (∀ (htmlIn urlIn fetchRes : Option String),
      (resolvePart000 htmlIn urlIn fetchRes).2 = true →
      (htmlIn = none ∨ htmlIn = some "") ∧ matchesHttpUrl urlIn = true) ∧
    (∀ (h : String) (fetchRes : Option String),
      resolveRoute (some h) none fetchRes = (h, false)) ∧
    (∀ (h u b : String), u ≠ "" → leadsWith "http".data u.data = true →
      resolveRoute (some h) (some u) (some b) = (b, true)) := by
  refine ⟨?_, ?_, ?_, ?_⟩
  · intro req load o h hh hne
    have hres : resolvePart000 req.html req.url o.fetchResult = (h, false) := by
      rw [hh]
      simp [resolvePart000, hne]
    constructor <;>
      (simp only [postPart000, hres]
       rw [if_neg hne]
       repeat' split
       all_goals rfl)
  · intro htmlIn urlIn fetchRes hf
    unfold resolvePart000 at hf
    cases htmlIn with
    | none =>
      refine ⟨Or.inl rfl, ?_⟩
      by_cases hm : matchesHttpUrl urlIn = true
      · exact hm
      · exfalso
        simp [hm] at hf
    | some h =>
      by_cases hh : h = ""
      · subst hh
        refine ⟨Or.inr rfl, ?_⟩
        by_cases hm : matchesHttpUrl urlIn = true
        · exact hm
        · exfalso
          simp [hm] at hf
      · exfalso
        simp [hh] at hf
  · intro h fetchRes
    rfl
  · intro h u b hu hlead
    simp [resolveRoute, hu, hlead]

def c3wReq : AnalyzeRequest :=
  { url := some "http://x", html := some "<p>hi</p>", provider := "ollama",
    key := none, model := none }

def c3wOracles : Oracles :=
  { fetchResult := some "<html>fetched</html>", envGoogleKey := none,
    ollama := { status := 200, chunks := [] },
    gemini := { ok := true, status := 200, textBody := "", parsedBody := none } }

/-- Witness for the amended C3 theorem at a concrete input. -/
theorem c3_inline_html_precedence_witness :
    ((postPart000 c3wReq anyLoad c3wOracles).rawHtmlUsed = "<p>hi</p>" ∧
      (postPart000 c3wReq anyLoad c3wOracles).didFetchUrl = false) ∧
    resolveRoute (some "<p>hi</p>") (some "http://x") (some "<html>fetched</html>") =
      ("<html>fetched</html>", true) :=
  ⟨c3_inline_html_precedence_amended.1 c3wReq anyLoad c3wOracles "<p>hi</p>" rfl (by decide),
   c3_inline_html_precedence_amended.2.2.2 "<p>hi</p>" "http://x" "<html>fetched</html>"
     (by decide) (by decide)⟩

/-- C7: each of the three fail-fast conditions — no usable markup, an
unrecognized provider discriminator, and the content-generation provider
with no API key available from the request or the environment — yields a
400 response whose body is the JSON `{"error": string}` record the
source builds, and no upstream model-provider call is made. -/
theorem c7_fail_fast_400 :
    (∀ (req : AnalyzeRequest) (load : String → List HNode) (o : Oracles),
      (resolvePart000 req.html req.url o.fetchResult).1 = "" →
      (postPart000 req load o).status = 400 ∧
      (postPart000 req load o).contentType = "application/json" ∧
      (postPart000 req load o).body = stringifyError "No URL/HTML provided." ∧
      (postPart000 req load o).calledModel = false) ∧
    (∀ (req : AnalyzeRequest) (load : String → List HNode) (o : Oracles),
      (resolvePart000 req.html req.url o.fetchResult).1 ≠ "" →
      req.provider ≠ "ollama" → req.provider ≠ "gemini" →
      (postPart000 req load o).status = 400 ∧
      (postPart000 req load o).contentType = "application/json" ∧
      (postPart000 req load o).body = stringifyError "Unknown provider" ∧
      (postPart000 req load o).calledModel = false) ∧
    (∀ (req : AnalyzeRequest) (load : String → List HNode) (o : Oracles),
      (resolvePart000 req.html req.url o.fetchResult).1 ≠ "" →
      req.provider = "gemini" →
      geminiKeyOf req.key o.envGoogleKey = none →
      (postPart000 req load o).status = 400 ∧
      (postPart000 req load o).contentType = "application/json" ∧
      (postPart000 req load o).body = stringifyError "Missing Google API key." ∧
      (postPart000 req load o).calledModel = false) := by
  refine ⟨?_, ?_, ?_⟩
  · intro req load o hres
    simp [postPart000, hres]
  · intro req load o hres hp1 hp2
    simp [postPart000, hres, hp1, hp2]
  · intro req load o hres hp hk
    simp [postPart000, hres, hp, hk]

def c7aReq : AnalyzeRequest :=
  { url := none, html := none, provider := "ollama", key := none, model := none }

def c7bReq : AnalyzeRequest :=
  { url := none, html := some "<p>x</p>", provider := "openai", key := none, model := none }

def c7cReq : AnalyzeRequest :=
  { url := none, html := some "<p>x</p>", provider := "gemini", key := none, model := none }

def c7Oracles : Oracles :=
  { fetchResult := none, envGoogleKey := none,
    ollama := { status := 200, chunks := [] },
    gemini := { ok := true, status := 200, textBody := "", parsedBody := none } }

/-- Witness for the C7 theorem at concrete inputs, one per fail-fast
condition. -/
theorem c7_fail_fast_400_witness :
    (postPart000 c7aReq anyLoad c7Oracles).status = 400 ∧
    (postPart000 c7bReq anyLoad c7Oracles).body = stringifyError "Unknown provider" ∧
    (postPart000 c7cReq anyLoad c7Oracles).body = stringifyError "Missing Google API key." ∧
    (postPart000 c7cReq anyLoad c7Oracles).calledModel = false :=
  ⟨(c7_fail_fast_400.1 c7aReq anyLoad c7Oracles rfl).1,
   (c7_fail_fast_400.2.1 c7bReq anyLoad c7Oracles (by decide) (by decide) (by decide)).2.2.1,
   (c7_fail_fast_400.2.2 c7cReq anyLoad c7Oracles (by decide) rfl rfl).2.2.1,
   (c7_fail_fast_400.2.2 c7cReq anyLoad c7Oracles (by decide) rfl rfl).2.2.2⟩

/-- Count written from the spec's words for C4: the number of distinct
elements matching at least one of the four button criteria, each element
counted once however many criteria it meets. -/
def specButtonCount (doc : List HNode) : Nat :=
  ((elemsOf doc).filter (fun e =>
    isButtonEl e || isAnchorRoleButton e || hasBtnClass e || testidButton e)).length

/-- A document whose only button-like element is a `div` with class
`btn`. -/
def divBtnDoc : List HNode := [.elem "div" [("class", "btn")] []]

/-- C4 (counterexample): the route.ts extractor counts only `button`
elements and anchors with role=button, so its `buttons` field disagrees
with the four-way distinct-union count on a document holding one
`.btn` element. -/
theorem c4_route_buttons_not_union :
    specButtonCount divBtnDoc = 1 ∧ (runRulesRoute divBtnDoc).buttons = 0 ∧
    (runRulesRoute divBtnDoc).buttons ≠ specButtonCount divBtnDoc := by
  refine ⟨rfl, rfl, by decide⟩

/-- C4 (amended): the part_000 extractor's `buttons` equals the number of
distinct elements matching at least one of the four criteria, counted
once each; the route.ts extractor counts only the two-way union of
`button` elements and anchors with role=button. -/
theorem c4_buttons_distinct_union_amended :
    (∀ doc : List HNode, (runRules doc).buttons = specButtonCount doc) ∧
    (∀ doc : List HNode, (runRulesRoute doc).buttons =
      ((elemsOf doc).filter (fun e => isButtonEl e || isAnchorRoleButton e)).length) := by
  constructor <;> intro doc <;>
    (simp only [runRules, runRulesRoute, runRulesWith, specButtonCount, selectList,
       buttonSelectors, buttonSelectorsRoute]
     congr 1
     apply List.filter_congr
     intro e _
     simp [Bool.or_assoc])

theorem head?_filter {α : Type} (p : α → Bool) (l : List α) :
    (l.filter p).head? = l.find? p := by
  induction l with
  | nil => rfl
  | cons a l ih =>
    by_cases hp : p a = true
    · rw [List.filter_cons_of_pos hp, List.find?_cons_of_pos _ hp]
      rfl
    · rw [List.filter_cons_of_neg (by simp [hp]), ih, List.find?_cons_of_neg _ hp]

/-- A document in which an `a.button` anchor precedes the only submit
button. -/
def ctaDoc : List HNode :=
  [.elem "html" [] [.elem "body" [] [
    .elem "a" [("class", "button")] [.txt "Later CTA"],
    .elem "button" [("type", "submit")] [.txt "Go"]]]]

/-- The anchor element of `ctaDoc`. -/
def ctaAnchor : HNode := .elem "a" [("class", "button")] [.txt "Later CTA"]

/-- The alternative semantics C5 rules out: take the first selector of
the CTA list that has any match, and return that selector's first
match. -/
def firstSelectorGuess (doc : List HNode) : String :=
  match ctaSelectors.find? (fun s => (elemsOf doc).any s) with
  | some s =>
    match (elemsOf doc).find? s with
    | some e => jsTrim (textOfNode e)
    | none => ""
  | none => ""

/-- C5: `primaryCtaGuess` is the trimmed text of the document-order-first
element across the unioned CTA candidate set; on a document where an
`a.button` anchor precedes every submit button, the anchor wins, whereas
the first-selector-with-a-match semantics would pick the submit
button. -/
theorem c5_cta_document_order :
    (∀ (doc : List HNode) (e : HNode),
      (elemsOf doc).find? (fun x => ctaSelectors.any (fun s => s x)) = some e →
      (runRules doc).primaryCtaGuess = jsTrim (textOfNode e)) ∧
    ((runRules ctaDoc).primaryCtaGuess = "Later CTA" ∧
      firstSelectorGuess ctaDoc = "Go" ∧
      firstSelectorGuess ctaDoc ≠ (runRules ctaDoc).primaryCtaGuess) := by
  constructor
  · intro doc e h
    simp only [runRules, runRulesWith, selectList]
    rw [head?_filter, h]
  · refine ⟨rfl, rfl, by decide⟩

/-- Witness for the C5 theorem at a concrete document. -/
theorem c5_cta_document_order_witness :
    (runRules ctaDoc).primaryCtaGuess = jsTrim (textOfNode ctaAnchor) :=
  c5_cta_document_order.1 ctaDoc ctaAnchor rfl

/-- The end-to-end example input of C9. -/
def shopHtml : String := "<html><title>Shop</title><button type=submit>Buy</button></html>"

/-- The element tree `cheerio.load` (an HTML5 parser) produces for
`shopHtml`: the title is placed under `head`, the button under `body`,
and the unquoted attribute parses as `type="submit"`. -/
def shopDoc : List HNode :=
  [.elem "html" [] [
    .elem "head" [] [.elem "title" [] [.txt "Shop"]],
    .elem "body" [] [.elem "button" [("type", "submit")] [.txt "Buy"]]]]

set_option maxRecDepth 80000 in
/-- C9: on the fixed shop example the extractor returns exactly the
claimed record, and the prompt built from that record and the raw HTML
contains the substring `primaryCtaGuess: "Buy"`. -/
theorem c9_shop_example :
    runRules shopDoc = SignalRecord.mk "Shop" false 0 0 0 1 "Buy" false false ∧
    containsSub "primaryCtaGuess: \"Buy\"".data
      (buildPrompt shopHtml (runRules shopDoc)).data = true := by
  refine ⟨by decide, by decide⟩

/-- C6 (counterexample): a chunk boundary inside a frame loses that
frame's fragment on the line-framed (local-generate) normalizer.  The two
chunks together are exactly the one well-formed newline-terminated frame
carrying "ab", yet nothing is emitted, because the transform splits each
chunk on newlines without buffering partial lines across chunks and both
halves fail to parse. -/
theorem c6_split_frame_drops_fragment :
    "\x7b\"respon" ++ "se\":\"ab\"\x7d\n" = ollamaWire ["ab"] ∧
    ollamaDeltas ["\x7b\"respon", "se\":\"ab\"\x7d\n"] = [] ∧
    concatAll (ollamaDeltas ["\x7b\"respon", "se\":\"ab\"\x7d\n"]) ≠ concatAll ["ab"] := by
  refine ⟨by decide, by decide, by decide⟩

/-- C6 (amended): the two normalizers give different reconstruction
guarantees.  The line-framed local-generate normalizer reconstructs the
upstream's full generated text when every chunk boundary falls on a
frame boundary (the emitted deltas are exactly the truthy fragments in
order, none reordered, lost or duplicated) — and only then: it splits
each chunk on newlines without buffering partial lines, so a boundary
inside a frame can drop that frame's fragment.  The buffered
chat-completions normalizer reconstructs the upstream fragments over
EVERY chunking of its wire, chunk boundaries inside events included,
because the buffer carries partial events across reads; the `[DONE]`
sentinel is dropped as a non-data frame. -/
theorem c6_reconstruction :
    (∀ (groups : List (List String)),
      ollamaDeltas (groups.map ollamaWire) = groups.flatten.filter (fun s => s ≠ "") ∧
      concatAll (ollamaDeltas (groups.map ollamaWire)) = concatAll groups.flatten) ∧
    (∀ (frags : List String) (c : String) (cs : List String),
      concatAll (c :: cs) = openaiWire frags ++ openaiDoneEvt →
      openaiDeltas (c :: cs) = frags.filter (fun s => s ≠ "") ∧
      concatAll (openaiDeltas (c :: cs)) = concatAll frags) := by
  constructor
  · intro groups
    refine ⟨ollamaDeltas_aligned groups, ?_⟩
    rw [ollamaDeltas_aligned, concatAll_filter_ne_empty]
  · intro frags c cs hw
    refine ⟨openaiDeltas_any frags c cs hw, ?_⟩
    rw [openaiDeltas_any frags c cs hw, concatAll_filter_ne_empty]

/-- Witness for the C6 theorem at concrete inputs: frame-aligned chunks
on the line-framed normalizer, and a chunking whose boundary falls in
the middle of an event (splitting the key `choices`) on the buffered
normalizer, which still reconstructs the fragment "ab". -/
theorem c6_reconstruction_witness :
    ollamaDeltas [ollamaWire ["a"], ollamaWire ["b"]] = ["a", "b"] ∧
    concatAll ["data: \x7b\"choi",
        "ces\":[\x7b\"delta\":\x7b\"content\":\"ab\"\x7d\x7d]\x7d\n\ndata: [DONE]\n\n"] =
      openaiWire ["ab"] ++ openaiDoneEvt ∧
    openaiDeltas ["data: \x7b\"choi",
        "ces\":[\x7b\"delta\":\x7b\"content\":\"ab\"\x7d\x7d]\x7d\n\ndata: [DONE]\n\n"] = ["ab"] :=
  ⟨((c6_reconstruction.1 [["a"], ["b"]]).1).trans (by decide),
   by decide,
   ((c6_reconstruction.2 ["ab"] "data: \x7b\"choi"
      ["ces\":[\x7b\"delta\":\x7b\"content\":\"ab\"\x7d\x7d]\x7d\n\ndata: [DONE]\n\n"]
      (by decide)).1).trans (by decide)⟩

end UxAudit
